import Mathlib

/-!
Verification development for the `AudioTimeLattice` component
(`Source/AudioTimeLattice.cpp` / `.h`).

Modelling conventions (shallow embedding):
* C++ `double` is modelled as `ℚ` (exact rational arithmetic; decimal
  literals of the source are taken at their exact decimal value).
* C++ `int` is modelled as `ℤ` (overflow is irrelevant at the input sizes
  the claims are about, except where noted explicitly: the `1 << bits`
  computation of `quantizeValue`, where the 32-bit width is essential and
  is modelled explicitly).
* `static_cast<int>(x)` on a floating value truncates toward zero and is
  modelled by `truncQ`; `std::floor` composed with the cast is `Int.floor`.
* A JUCE `AudioBuffer<float>` is modelled as a structure carrying a channel
  count, a sample count and a total indexing function `ℕ → ℕ → ℚ`
  (channel → sample index → sample); the editing operations only ever read
  the in-range part.
* `std::sqrt` (used by `detectTransients`) is irrational in general and is
  modelled by `Real.sqrt`; everything up to the square root stays rational
  and computable.
-/

/-- `TimeDomain` enumeration of `AudioTimeLattice.h`. -/
inductive TimeDomain
  | AudioSamples
  | Seconds
  | MusicalTicks
  | BarsBeatsTicks
  | SMPTEFrames
deriving DecidableEq

/-- `QuantizeMode` enumeration of `AudioTimeLattice.h`. -/
inductive QuantizeMode
  | Nearest
  | Floor
  | Ceil
deriving DecidableEq

/-- `ValueResolution` enumeration of `AudioTimeLattice.h`. -/
inductive ValueResolution
  | Bit7
  | Bit14
  | Bit24
  | Bit32
deriving DecidableEq

/-- Underlying integer value of a `ValueResolution` constant. -/
def ValueResolution.bits : ValueResolution → ℕ
  | .Bit7 => 7
  | .Bit14 => 14
  | .Bit24 => 24
  | .Bit32 => 32

/-- `MusicalTime` structure (`bars`/`beats` 1-based, `ticks` 0-based,
`remainder` the sub-tick fraction). -/
structure MusicalTime where
  bars : ℤ
  beats : ℤ
  ticks : ℤ
  remainder : ℚ
deriving DecidableEq

/-- `TempoEvent` structure of `AudioTimeLattice.h`. -/
structure TempoEvent where
  timeInSeconds : ℚ
  bpm : ℚ
  upperTimeSig : ℤ
  lowerTimeSig : ℤ
deriving DecidableEq

/-- Mutable configuration state of an `AudioTimeLattice` instance (the
marker list plays no role in any claim and is omitted). -/
structure TimeLattice where
  ppqn : ℤ
  sampleRate : ℚ
  tempoMap : List TempoEvent
deriving DecidableEq

/-- Truncation toward zero, the semantics of C++ `static_cast<int>` on a
floating value. -/
def truncQ (q : ℚ) : ℤ :=
  if 0 ≤ q then ⌊q⌋ else ⌈q⌉

/-- C++ `/` on `int` (truncated division). -/
def cppDiv (a b : ℤ) : ℤ :=
  a.sign * b.sign * ((a.natAbs / b.natAbs : ℕ) : ℤ)

/-- C++ `%` on `int` (remainder of truncated division). -/
def cppMod (a b : ℤ) : ℤ :=
  a - cppDiv a b * b

/-- Hardcoded fallback tempo `{0.0, 120.0, 4, 4}` used by
`getCurrentTempo` when the tempo map is empty. -/
def defaultTempo : TempoEvent := ⟨0, 120, 4, 4⟩

/-- `AudioTimeLattice::getCurrentTempo`: scan the tempo map from the latest
event backward, return the first whose `timeInSeconds ≤ t`; fall back to the
front of the map, or to `defaultTempo` when the map is empty. -/
def getCurrentTempo (m : List TempoEvent) (t : ℚ) : TempoEvent :=
  match m.reverse.find? (fun e => decide (e.timeInSeconds ≤ t)) with
  | some e => e
  | none => m.headD defaultTempo

/-- `std::numeric_limits<double>::epsilon()` (2⁻⁵²), taken at its exact
value. -/
def machineEpsilon : ℚ := 1 / 2 ^ 52

/-- `AudioTimeLattice::musicalToSeconds`. -/
def musicalToSeconds (s : TimeLattice) (mt : MusicalTime) : ℚ :=
  let tempo := getCurrentTempo s.tempoMap 0
  let quarterLength := 60 / tempo.bpm
  let beatLength := quarterLength * 4 / (tempo.lowerTimeSig : ℚ)
  let totalBeats := ((mt.bars - 1 : ℤ) : ℚ) * (tempo.upperTimeSig : ℚ) +
    ((mt.beats - 1 : ℤ) : ℚ) +
    ((mt.ticks : ℚ) + mt.remainder) / (s.ppqn : ℚ)
  totalBeats * beatLength

/-- `AudioTimeLattice::secondsToMusical` (with the epsilon nudge
`1 + max(1, seconds) * machineEpsilon` of the source). -/
def secondsToMusical (s : TimeLattice) (seconds : ℚ) : MusicalTime :=
  let tempo := getCurrentTempo s.tempoMap seconds
  let quarterLength := 60 / tempo.bpm
  let beatLength := quarterLength * 4 / (tempo.lowerTimeSig : ℚ)
  let barLength := (tempo.upperTimeSig : ℚ) * beatLength
  let eps := 1 + max 1 seconds * machineEpsilon
  let bars := ⌊seconds * eps / barLength⌋
  let seconds1 := seconds - (bars : ℚ) * barLength
  let beats := ⌊seconds1 * eps / beatLength⌋
  let seconds2 := seconds1 - (beats : ℚ) * beatLength
  let ticksFractional := seconds2 * ((s.ppqn : ℚ) / beatLength)
  let ticks := truncQ ticksFractional
  let remainder := ticksFractional - (ticks : ℚ)
  ⟨bars + 1, beats + 1, ticks, remainder⟩

/-- `AudioTimeLattice::toSeconds`. -/
def toSeconds (s : TimeLattice) (value : ℚ) (domain : TimeDomain) : ℚ :=
  match domain with
  | .AudioSamples => value / s.sampleRate
  | .Seconds => value
  | .MusicalTicks =>
    let tempo := getCurrentTempo s.tempoMap 0
    let beatLength := 60 / tempo.bpm
    let tickLength := beatLength / (s.ppqn : ℚ)
    value * tickLength
  | .BarsBeatsTicks =>
    let encoded := truncQ value
    let bars := cppDiv encoded 1000000
    let beats := cppDiv (cppMod encoded 1000000) 1000
    let ticks := cppMod encoded 1000
    musicalToSeconds s ⟨bars, beats, ticks, 0⟩
  | .SMPTEFrames => value / 30

/-- `AudioTimeLattice::fromSeconds`. -/
def fromSeconds (s : TimeLattice) (seconds : ℚ) (domain : TimeDomain) : ℚ :=
  match domain with
  | .AudioSamples => seconds * s.sampleRate
  | .Seconds => seconds
  | .MusicalTicks =>
    let tempo := getCurrentTempo s.tempoMap seconds
    let beatLength := 60 / tempo.bpm
    seconds / (beatLength / (s.ppqn : ℚ))
  | .BarsBeatsTicks =>
    let mt := secondsToMusical s seconds
    (mt.bars : ℚ) * 1000000 + (mt.beats : ℚ) * 1000 + (mt.ticks : ℚ)
  | .SMPTEFrames => seconds * 30

/-- `AudioTimeLattice::secondsToSamples` (`static_cast<int>(x + 0.5)`,
i.e. round half-up for non-negative arguments). -/
def secondsToSamples (s : TimeLattice) (seconds : ℚ) : ℤ :=
  truncQ (seconds * s.sampleRate + 1 / 2)

/-- `AudioTimeLattice::samplesToSeconds`. -/
def samplesToSeconds (s : TimeLattice) (samples : ℤ) : ℚ :=
  (samples : ℚ) / s.sampleRate

/-- `AudioTimeLattice::getTickDuration`. -/
def getTickDuration (s : TimeLattice) : ℚ :=
  let tempo := getCurrentTempo s.tempoMap 0
  let beatLength := 60 / tempo.bpm
  beatLength / (s.ppqn : ℚ)

/-- Tick length computed from the tempo in effect at `t`, the quantity the
grid generators derive locally (`beatLength / ppqn`). -/
def tickLengthAt (s : TimeLattice) (t : ℚ) : ℚ :=
  (60 / (getCurrentTempo s.tempoMap t).bpm) / (s.ppqn : ℚ)

/-- `AudioTimeLattice::generatePPQNGrid`: enumerate ticks from
`startTick = trunc(start / tickLength)` to `endTick = trunc(end / tickLength)`
and keep the tick times falling inside `[start, end]`. -/
def generatePPQNGrid (s : TimeLattice) (startSeconds endSeconds : ℚ) : List ℚ :=
  let tickLength := tickLengthAt s startSeconds
  let startTick := truncQ (startSeconds / tickLength)
  let endTick := truncQ (endSeconds / tickLength)
  (((List.range (endTick - startTick + 1).toNat).map
      (fun (i : ℕ) => startTick + (i : ℤ))).map
    (fun (tick : ℤ) => (tick : ℚ) * tickLength)).filter
    (fun time => decide (startSeconds ≤ time) && decide (time ≤ endSeconds))

/-- `AudioTimeLattice::generateBeatGrid`. -/
def generateBeatGrid (s : TimeLattice) (startSeconds endSeconds : ℚ) : List ℚ :=
  let tempo := getCurrentTempo s.tempoMap startSeconds
  let beatLength := 60 / tempo.bpm
  let startBeat := truncQ (startSeconds / beatLength)
  let endBeat := truncQ (endSeconds / beatLength)
  (((List.range (endBeat - startBeat + 1).toNat).map
      (fun (i : ℕ) => startBeat + (i : ℤ))).map
    (fun (beat : ℤ) => (beat : ℚ) * beatLength)).filter
    (fun time => decide (startSeconds ≤ time) && decide (time ≤ endSeconds))

/-- The inner scan of `AudioTimeLattice::quantizeToGrid` that finds the
nearest grid point: running best value updated when a strictly smaller
absolute distance is seen. -/
def nearestScan (t : ℚ) : List ℚ → ℚ → ℚ
  | [], best => best
  | g :: rest, best => nearestScan t rest (if |t - g| < |t - best| then g else best)

/-- Local grid used by `quantizeToGrid`: the PPQN grid of the ±1 second
window around the input. -/
def localGrid (s : TimeLattice) (t : ℚ) : List ℚ :=
  generatePPQNGrid s (t - 1) (t + 1)

/-- Nearest grid point of the local grid as `quantizeToGrid` computes it
(initial best is `grid[0]`, then every grid element is scanned). -/
def nearestGridPoint (s : TimeLattice) (t : ℚ) : ℚ :=
  nearestScan t (localGrid s t) ((localGrid s t).headD t)

/-- `AudioTimeLattice::quantizeToGrid`. -/
def quantizeToGrid (s : TimeLattice) (t : ℚ) (mode : QuantizeMode) : ℚ :=
  let grid := localGrid s t
  if grid.isEmpty then t
  else
    let nearestTime := nearestGridPoint s t
    match mode with
    | .Nearest => nearestTime
    | .Floor =>
      if nearestTime ≤ t then nearestTime
      else if grid.length > 1 then grid.getD (grid.length - 2) 0 else nearestTime
    | .Ceil =>
      if t ≤ nearestTime then nearestTime
      else if grid.length > 1 then grid.getD 1 0 else nearestTime

/-- Step count `(1 << bits) - 1` of `AudioTimeLattice::quantizeValue`,
computed in a 32-bit C++ `int`.  For `Bit32` the shift `1 << 32` is
undefined behavior in C++; it is modelled with the x86 semantics actually
produced by the reference compilers (shift count taken mod 32), giving
`1 - 1 = 0` steps.  For the other resolutions the value is the exact
`2^bits - 1`. -/
def stepsOf (r : ValueResolution) : ℤ :=
  2 ^ (r.bits % 32) - 1

/-- `AudioTimeLattice::quantizeValue`. -/
def quantizeValue (value : ℚ) (resolution : ValueResolution) : ℚ :=
  let steps := stepsOf resolution
  let normalized := (value + 1) * (1 / 2)
  let quantized := truncQ (normalized * (steps : ℚ) + 1 / 2)
  ((quantized : ℚ) / (steps : ℚ)) * 2 - 1

/-- `AudioTimeLattice::calculatePerceptualThreshold`. -/
def calculatePerceptualThreshold (resolution : ValueResolution) : ℚ :=
  match resolution with
  | .Bit7 => 2 / 100
  | .Bit14 => 1 / 1000
  | .Bit24 => 1 / 10000
  | .Bit32 => 1 / 100000

/-- Loop body of `AudioTimeLattice::quantizeBreakpoints`: walks the input in
order, keeping the accumulated result and the last kept (time, value). -/
def qbLoop (s : TimeLattice) (resolution : ValueResolution) (simplify : Bool)
    (threshold : ℚ) :
    List (ℚ × ℚ) → List (ℚ × ℚ) → ℚ → ℚ → List (ℚ × ℚ)
  | [], acc, _, _ => acc
  | (time, value) :: rest, acc, lastTime, lastValue =>
    let qTime := quantizeToGrid s time .Nearest
    let qValue := quantizeValue value resolution
    if simplify = true ∧ acc ≠ [] ∧
        |qTime - lastTime| < getTickDuration s * (1 / 2) ∧
        |qValue - lastValue| < threshold then
      qbLoop s resolution simplify threshold rest acc lastTime lastValue
    else
      qbLoop s resolution simplify threshold rest (acc ++ [(qTime, qValue)]) qTime qValue

/-- `AudioTimeLattice::quantizeBreakpoints` (initial `lastTime = -1`,
`lastValue = 0` as in the source). -/
def quantizeBreakpoints (s : TimeLattice) (input : List (ℚ × ℚ))
    (resolution : ValueResolution) (simplify : Bool) : List (ℚ × ℚ) :=
  if input = [] then []
  else qbLoop s resolution simplify (calculatePerceptualThreshold resolution)
    input [] (-1) 0

/-- A JUCE `AudioBuffer<float>`: channel count, sample count, and the
sample data addressed as channel → index → value.  The data function is
total; the operations only ever read indices inside
`[0, numChannels) × [0, numSamples)`. -/
structure Buffer where
  numChannels : ℕ
  numSamples : ℕ
  data : ℕ → ℕ → ℚ

/-- `juce::AudioBuffer::copyFrom (destChannel, destStartSample, source,
sourceChannel, sourceStartSample, numSamples)`: overwrite the destination
region with the source region, leaving everything else unchanged. -/
def Buffer.copyFrom (dest : Buffer) (destCh destStart : ℕ) (src : Buffer)
    (srcCh srcStart num : ℕ) : Buffer :=
  { dest with data := fun ch i =>
      if ch = destCh ∧ destStart ≤ i ∧ i < destStart + num then
        src.data srcCh (srcStart + (i - destStart))
      else dest.data ch i }

/-- A freshly constructed `juce::AudioBuffer` after `clear()`: all samples
zero. -/
def clearedBuffer (numChannels numSamples : ℕ) : Buffer :=
  ⟨numChannels, numSamples, fun _ _ => 0⟩

/-- `AudioTimeLattice::nudge`.  `nudgeSamples` comes from
`secondsToSamples(|amount|)` (never negative); the output buffer is created,
cleared, then each channel receives the shifted copy. -/
def nudge (s : TimeLattice) (input : Buffer) (nudgeAmount : ℚ)
    (fillWithSilence : Bool) : Buffer :=
  let nudgeSamples := (secondsToSamples s |nudgeAmount|).toNat
  let nudgeForward := 0 < nudgeAmount
  let output := clearedBuffer input.numChannels input.numSamples
  let _ := fillWithSilence  -- accepted but never consulted, as in the source
  if nudgeForward then
    (List.range input.numChannels).foldl
      (fun out ch =>
        out.copyFrom ch nudgeSamples input ch 0 (input.numSamples - nudgeSamples))
      output
  else
    (List.range input.numChannels).foldl
      (fun out ch =>
        out.copyFrom ch 0 input ch nudgeSamples (input.numSamples - nudgeSamples))
      output

/-- `juce::jlimit (lowerLimit, upperLimit, value)`. -/
def jlimit (lo hi v : ℤ) : ℤ :=
  if v < lo then lo else if hi < v then hi else v

/-- `AudioTimeLattice::trim`: clamp the two sample positions, return the
samples of `[startSample, endSample)`. -/
def trim (s : TimeLattice) (input : Buffer) (startTime endTime : ℚ) : Buffer :=
  let startSample := jlimit 0 (input.numSamples : ℤ) (secondsToSamples s startTime)
  let endSample := jlimit startSample (input.numSamples : ℤ) (secondsToSamples s endTime)
  let numSamples := (endSample - startSample).toNat
  ⟨input.numChannels, numSamples,
    fun ch i => input.data ch (startSample.toNat + i)⟩

/-- `AudioTimeLattice::cut`: clamp the two sample positions identically to
`trim`, return the buffer with `[startSample, endSample)` removed. -/
def cut (s : TimeLattice) (input : Buffer) (startTime endTime : ℚ) : Buffer :=
  let startSample := jlimit 0 (input.numSamples : ℤ) (secondsToSamples s startTime)
  let endSample := jlimit startSample (input.numSamples : ℤ) (secondsToSamples s endTime)
  let cutLength := endSample - startSample
  let outputLength := ((input.numSamples : ℤ) - cutLength).toNat
  ⟨input.numChannels, outputLength,
    fun ch i =>
      if i < startSample.toNat then input.data ch i
      else input.data ch (endSample.toNat + (i - startSample.toNat))⟩

/-- Number of crossfade samples of `AudioTimeLattice::crossfade`. -/
def crossfadeSamples (s : TimeLattice) (crossfadeDuration : ℚ) : ℤ :=
  secondsToSamples s crossfadeDuration

/-- Output length `clip1.getNumSamples() + clip2.getNumSamples() -
crossfadeSamples` of `AudioTimeLattice::crossfade`. -/
def crossfadeOutputLength (s : TimeLattice) (clip1 clip2 : Buffer)
    (crossfadeDuration : ℚ) : ℤ :=
  (clip1.numSamples : ℤ) + (clip2.numSamples : ℤ) - crossfadeSamples s crossfadeDuration

/-- Fade start index `clip1.getNumSamples() - crossfadeSamples` of
`AudioTimeLattice::crossfade`. -/
def crossfadeFadeStart (s : TimeLattice) (clip1 : Buffer)
    (crossfadeDuration : ℚ) : ℤ :=
  (clip1.numSamples : ℤ) - crossfadeSamples s crossfadeDuration

/-- `AudioTimeLattice::crossfade`.  The equal-power coefficients
`cos(i / fadeSamples · π/2)` and `sin(i / fadeSamples · π/2)` are irrational,
so the construction is parameterized over the two coefficient sequences
(`fadeOutAt`, `fadeInAt`); no claim depends on the sample values of the fade
region.  The three write phases of the source (copy of clip1, fade mix,
tail copy of clip2) touch pairwise disjoint index regions, so they are
expressed as one layered conditional. -/
def crossfade (fadeOutAt fadeInAt : ℕ → ℚ) (s : TimeLattice)
    (clip1 clip2 : Buffer) (crossfadeDuration : ℚ) : Buffer :=
  let fade := crossfadeSamples s crossfadeDuration
  let outputLength := crossfadeOutputLength s clip1 clip2 crossfadeDuration
  let fadeStart := crossfadeFadeStart s clip1 crossfadeDuration
  ⟨clip1.numChannels, outputLength.toNat,
    fun ch i =>
      if clip1.numSamples ≤ i ∧ ch < clip2.numChannels then
        clip2.data ch (fade.toNat + (i - clip1.numSamples))
      else if fadeStart.toNat ≤ i ∧ i < fadeStart.toNat + fade.toNat ∧
          ch < clip1.numChannels then
        clip1.data ch i * fadeOutAt (i - fadeStart.toNat) +
          clip2.data ch (i - fadeStart.toNat) * fadeInAt (i - fadeStart.toNat)
      else if i < clip1.numSamples ∧ ch < clip1.numChannels then
        clip1.data ch i
      else 0⟩

/-- In-bounds predicate for every buffer access `AudioTimeLattice::crossfade`
performs, phase by phase, mirroring the source loops: phase 1 copies `clip1`
into `output[0, N1)` for each channel of `clip1`; phase 2 reads
`clip1[fadeStart + i]` and `clip2[i]` and writes `output[fadeStart + i]` for
`i < crossfadeSamples` on each channel of `output`; phase 3 copies
`clip2[fade, N2)` to `output[N1, N1 + N2 - fade)` for each channel of
`clip2`. -/
def crossfadeInBounds (s : TimeLattice) (clip1 clip2 : Buffer)
    (crossfadeDuration : ℚ) : Prop :=
  let fade := crossfadeSamples s crossfadeDuration
  let outLen := crossfadeOutputLength s clip1 clip2 crossfadeDuration
  let fs := crossfadeFadeStart s clip1 crossfadeDuration
  let outCh := clip1.numChannels
  0 ≤ outLen ∧
  (∀ ch < clip1.numChannels, ch < outCh ∧
    ∀ i < clip1.numSamples, (i : ℤ) < outLen) ∧
  (∀ ch < outCh, ∀ i < fade.toNat, 0 ≤ fade ∧
    ch < clip1.numChannels ∧ ch < clip2.numChannels ∧
    0 ≤ fs + (i : ℤ) ∧ fs + (i : ℤ) < (clip1.numSamples : ℤ) ∧
    fs + (i : ℤ) < outLen ∧ i < clip2.numSamples) ∧
  (∀ ch < clip2.numChannels, ch < outCh ∧ 0 ≤ (clip2.numSamples : ℤ) - fade ∧
    ∀ i < ((clip2.numSamples : ℤ) - fade).toNat,
      (clip1.numSamples : ℤ) + (i : ℤ) < outLen ∧ 0 ≤ fade + (i : ℤ) ∧
      fade + (i : ℤ) < (clip2.numSamples : ℤ))

/-- Analysis window size of `AudioTimeLattice::detectTransients`. -/
def windowSize : ℕ := 1024

/-- Hop size of `AudioTimeLattice::detectTransients`. -/
def hopSize : ℕ := 512

/-- Number of analysis windows: the source loop runs `start = 0, 512, …`
while `start < numSamples - windowSize` (computed in `int`, so no window at
all when `numSamples ≤ windowSize`). -/
def numWindows (numSamples : ℕ) : ℕ :=
  (numSamples - windowSize + hopSize - 1) / hopSize

/-- Window start positions of `AudioTimeLattice::detectTransients`. -/
def windowStarts (numSamples : ℕ) : List ℕ :=
  (List.range (numWindows numSamples)).map (· * hopSize)

/-- Mean square of one analysis window across all channels
(`energy / (windowSize * numChannels)` just before the square root). -/
def windowMeanSquare (buf : Buffer) (start : ℕ) : ℚ :=
  (∑ ch in Finset.range buf.numChannels, ∑ i in Finset.range windowSize,
      buf.data ch (start + i) * buf.data ch (start + i)) /
    ((windowSize : ℚ) * (buf.numChannels : ℚ))

/-- RMS energy of one analysis window (`std::sqrt` of the mean square,
modelled over the reals). -/
noncomputable def windowEnergy (buf : Buffer) (start : ℕ) : ℝ :=
  Real.sqrt ((windowMeanSquare buf start : ℚ) : ℝ)

open Classical in
/-- Detection loop of `AudioTimeLattice::detectTransients`: at each window
the onset strength is `max(0, energy - previousEnergy)`; a window start is
recorded when it exceeds the threshold; the previous energy then decays to
`energy * 0.9`. -/
noncomputable def transientScan (buf : Buffer) (threshold : ℚ) :
    List ℕ → ℝ → List ℕ
  | [], _ => []
  | start :: rest, previousEnergy =>
    let energy := windowEnergy buf start
    let onsetStrength := max 0 (energy - previousEnergy)
    (if (threshold : ℝ) < onsetStrength then [start] else []) ++
      transientScan buf threshold rest (energy * (9 / 10))

/-- `AudioTimeLattice::detectTransients`. -/
noncomputable def detectTransients (s : TimeLattice) (buf : Buffer)
    (threshold : ℚ) : List ℚ :=
  (transientScan buf threshold (windowStarts buf.numSamples) 0).map
    (fun (start : ℕ) => samplesToSeconds s (start : ℤ))

/-- Tick length as the spec words it: `(60/bpm) / PPQN` for a given tempo
event.  Written from the specification text, to be compared with the
source-derived conversion functions. -/
def specTickLength (e : TempoEvent) (ppqn : ℤ) : ℚ :=
  (60 / e.bpm) / (ppqn : ℚ)

/-- Uniform scalar quantizer as the spec words it: remap `[-1,1] → [0,1]`,
round half-up onto `2^bits - 1` discrete steps, remap back.  Written from
the specification text, to be compared with the source-derived
`quantizeValue`. -/
def specQuantizeValue (v : ℚ) (bits : ℕ) : ℚ :=
  ((⌊(v + 1) / 2 * ((2 : ℚ) ^ bits - 1) + 1 / 2⌋ : ℤ) : ℚ) /
      ((2 : ℚ) ^ bits - 1) * 2 - 1

/-- Default-constructed lattice: `AudioTimeLattice(960, 48000)` with the
default tempo event `{0, 120, 4, 4}`. -/
def sDefault : TimeLattice := ⟨960, 48000, [⟨0, 120, 4, 4⟩]⟩

/-- Lattice after `setPPQN(24)` and `setTempo(3.75)`: minimum PPQN with a
slow tempo, so the tick length is `60/3.75/24 = 2/3` seconds and local
quantization grids are short. -/
def sSparse : TimeLattice := ⟨24, 48000, [⟨0, 15 / 4, 4, 4⟩]⟩

/-- Counterexample buffer for transient detection: one channel, 3072
samples, silent up to sample 1424 (so the jump is misaligned with the
512-sample hop), full-scale from there on. -/
def bufMisaligned : Buffer :=
  ⟨1, 3072, fun _ i => if i < 1424 then 0 else 1⟩

/-- Family of hop-aligned step buffers: one channel, silent on
`[0, 512k)`, full-scale on `[512k, 512k + m)`. -/
def bufAligned (k m : ℕ) : Buffer :=
  ⟨1, 512 * k + m, fun _ i => if i < 512 * k then 0 else 1⟩

/-- A one-event tempo map always resolves to its event, whatever the query
time: either the event qualifies, or the scan falls back to the front of the
map, which is the same event. -/
theorem getCurrentTempo_singleton (e : TempoEvent) (t : ℚ) :
    getCurrentTempo [e] t = e := by
  unfold getCurrentTempo
  by_cases h : e.timeInSeconds ≤ t <;> simp [List.find?, h]

theorem truncQ_of_nonneg {q : ℚ} (h : 0 ≤ q) : truncQ q = ⌊q⌋ := if_pos h

theorem truncQ_of_neg {q : ℚ} (h : ¬0 ≤ q) : truncQ q = ⌈q⌉ := if_neg h

theorem truncQ_eq_of_nonneg {q : ℚ} {n : ℤ} (h0 : 0 ≤ q) (h1 : (n : ℚ) ≤ q)
    (h2 : q < n + 1) : truncQ q = n := by
  rw [truncQ_of_nonneg h0, Int.floor_eq_iff.mpr ⟨h1, h2⟩]

theorem truncQ_eq_of_neg {q : ℚ} {n : ℤ} (h0 : ¬0 ≤ q) (h1 : (n : ℚ) - 1 < q)
    (h2 : q ≤ n) : truncQ q = n := by
  rw [truncQ_of_neg h0, Int.ceil_eq_iff.mpr ⟨h1, h2⟩]

theorem jlimit_bounds (lo hi v : ℤ) (h : lo ≤ hi) :
    lo ≤ jlimit lo hi v ∧ jlimit lo hi v ≤ hi := by
  unfold jlimit; split_ifs <;> omega

/-- C3: for every lattice state, `toSeconds(v, MusicalTicks)` multiplies by
the tick length `(60/bpm)/PPQN` of the tempo in effect at time 0, while
`fromSeconds(s, MusicalTicks)` divides by the tick length of the tempo in
effect at time `s`: the two directions resolve the tempo at different
times. -/
theorem toSeconds_fromSeconds_musicalTicks (s : TimeLattice) (v sec : ℚ) :
    toSeconds s v .MusicalTicks =
        v * specTickLength (getCurrentTempo s.tempoMap 0) s.ppqn ∧
      fromSeconds s sec .MusicalTicks =
        sec / specTickLength (getCurrentTempo s.tempoMap sec) s.ppqn := by
  constructor <;> simp [toSeconds, fromSeconds, specTickLength]

/-- C9: `cut` and `trim` clamp the same two sample positions the same way,
so their output lengths always sum to the input length, for out-of-range or
reversed time arguments included. -/
theorem cut_length_add_trim_length (s : TimeLattice) (input : Buffer)
    (startTime endTime : ℚ) :
    (cut s input startTime endTime).numSamples +
        (trim s input startTime endTime).numSamples = input.numSamples := by
  unfold cut trim
  dsimp only
  have h1 := jlimit_bounds 0 (input.numSamples : ℤ)
    (secondsToSamples s startTime) (by positivity)
  have h2 := jlimit_bounds
    (jlimit 0 (input.numSamples : ℤ) (secondsToSamples s startTime))
    (input.numSamples : ℤ) (secondsToSamples s endTime) h1.2
  omega

theorem sDefault_tempoMap : sDefault.tempoMap = [⟨0, 120, 4, 4⟩] := rfl

theorem truncQ_zero : truncQ 0 = 0 :=
  truncQ_eq_of_nonneg (by norm_num) (by norm_num) (by norm_num)

theorem truncQ_four : truncQ 4 = 4 :=
  truncQ_eq_of_nonneg (by norm_num) (by norm_num) (by norm_num)

/-- C6: in the concrete scenario PPQN 960, sample rate 48000, single tempo
event 120 bpm 4/4 at time 0: the tick duration is `60/120/960 = 1/1920`
seconds, the beat grid over `[0, 2]` is exactly `[0, 0.5, 1, 1.5, 2]`, and
`secondsToMusical 2.0` lands on bar 2, beat 1, tick 0. -/
theorem defaultScenario_tick_beatGrid_musical :
    getTickDuration sDefault = 1 / 1920 ∧
      generateBeatGrid sDefault 0 2 = [0, 1 / 2, 1, 3 / 2, 2] ∧
      secondsToMusical sDefault 2 = ⟨2, 1, 0, 0⟩ := by
  refine ⟨?_, ?_, ?_⟩
  · unfold getTickDuration
    rw [sDefault_tempoMap, getCurrentTempo_singleton]
    norm_num [sDefault]
  · unfold generateBeatGrid
    rw [sDefault_tempoMap, getCurrentTempo_singleton]
    norm_num
    rw [truncQ_zero, truncQ_four]
    rw [show ((4 : ℤ) - 0 + 1).toNat = 5 by rfl]
    rw [show List.range 5 = [0, 1, 2, 3, 4] by rfl]
    simp [List.filter]
    norm_num
  · unfold secondsToMusical
    rw [sDefault_tempoMap, getCurrentTempo_singleton]
    norm_num [machineEpsilon]
    rw [truncQ_zero]

/-- C5: with a single-event tempo map at time 0 (non-degenerate bpm, time
signature denominator and PPQN), converting seconds to musical time and
back recovers the input exactly in the rational model: the floor-based bar
and beat counts and the truncated tick count cancel algebraically, whatever
the epsilon nudge does. -/
theorem musicalToSeconds_secondsToMusical_roundTrip (e : TempoEvent)
    (p : ℤ) (rate : ℚ) (sec : ℚ) (ht : e.timeInSeconds = 0)
    (hb : e.bpm ≠ 0) (hl : e.lowerTimeSig ≠ 0) (hp : p ≠ 0) (hs : 0 ≤ sec) :
    musicalToSeconds ⟨p, rate, [e]⟩
        (secondsToMusical ⟨p, rate, [e]⟩ sec) = sec := by
  unfold musicalToSeconds secondsToMusical
  rw [show (⟨p, rate, [e]⟩ : TimeLattice).tempoMap = [e] from rfl,
    getCurrentTempo_singleton, getCurrentTempo_singleton]
  dsimp only
  have hB : 60 / e.bpm * 4 / (e.lowerTimeSig : ℚ) ≠ 0 := by
    refine div_ne_zero (mul_ne_zero (div_ne_zero ?_ hb) ?_) ?_ <;>
      simp [Int.cast_ne_zero, hl]
  have hpQ : (p : ℚ) ≠ 0 := Int.cast_ne_zero.mpr hp
  push_cast
  field_simp
  ring

/-- Agreement of the source quantizer with the spec quantizer whenever the
step count did not overflow: for a resolution whose bit count is below 32,
`quantizeValue` equals the spec's uniform scalar quantizer with
`2^bits - 1` steps, on `[-1, 1]`. -/
theorem quantizeValue_eq_spec (v : ℚ) (r : ValueResolution)
    (hr : r.bits % 32 = r.bits) (h1 : -1 ≤ v) :
    quantizeValue v r = specQuantizeValue v r.bits := by
  unfold quantizeValue specQuantizeValue stepsOf
  rw [hr]
  dsimp only
  have hnn : (0 : ℚ) ≤ (v + 1) * (1 / 2) * ((2 ^ r.bits - 1 : ℤ) : ℚ) + 1 / 2 := by
    have h2 : (0 : ℚ) ≤ v + 1 := by linarith
    have h3 : (0 : ℚ) ≤ ((2 ^ r.bits - 1 : ℤ) : ℚ) := by
      push_cast
      have : (1 : ℚ) ≤ 2 ^ r.bits := one_le_pow₀ (by norm_num)
      linarith
    positivity
  rw [truncQ_of_nonneg hnn]
  have harg : (v + 1) * (1 / 2) * ((2 ^ r.bits - 1 : ℤ) : ℚ) + 1 / 2 =
      (v + 1) / 2 * ((2 : ℚ) ^ r.bits - 1) + 1 / 2 := by
    push_cast
    ring
  rw [harg]
  push_cast
  ring

/-- C4: for values in `[-1, 1]`, `quantizeValue` realizes the spec's uniform
scalar quantizer (remap to `[0,1]`, round half-up onto `2^R - 1` steps,
remap back) for the 7-, 14- and 24-bit resolutions — but for the 32-bit
resolution the step count `(1 << 32) - 1`, computed in a 32-bit `int`,
is 0 rather than the claimed `2^32 - 1` (the shift is undefined behavior
and `2^32 - 1` is not representable), so the 32-bit path divides by zero
instead of quantizing. -/
theorem quantizeValue_spec_resolutions (v : ℚ) (h1 : -1 ≤ v) (h2 : v ≤ 1) :
    (quantizeValue v .Bit7 = specQuantizeValue v 7 ∧
      quantizeValue v .Bit14 = specQuantizeValue v 14 ∧
      quantizeValue v .Bit24 = specQuantizeValue v 24) ∧
    stepsOf .Bit32 = 0 := by
  refine ⟨⟨?_, ?_, ?_⟩, by norm_num [stepsOf, ValueResolution.bits]⟩
  · exact quantizeValue_eq_spec v .Bit7 rfl h1
  · exact quantizeValue_eq_spec v .Bit14 rfl h1
  · exact quantizeValue_eq_spec v .Bit24 rfl h1

theorem quantizeValue_spec_resolutions_witness :
    -1 ≤ (1 / 2 : ℚ) ∧ (1 / 2 : ℚ) ≤ 1 ∧
      ((quantizeValue (1 / 2) .Bit7 = specQuantizeValue (1 / 2) 7 ∧
          quantizeValue (1 / 2) .Bit14 = specQuantizeValue (1 / 2) 14 ∧
          quantizeValue (1 / 2) .Bit24 = specQuantizeValue (1 / 2) 24) ∧
        stepsOf .Bit32 = 0) :=
  ⟨by norm_num, by norm_num,
    quantizeValue_spec_resolutions (1 / 2) (by norm_num) (by norm_num)⟩

theorem musicalToSeconds_secondsToMusical_roundTrip_witness :
    (⟨0, 120, 4, 4⟩ : TempoEvent).timeInSeconds = 0 ∧
      (⟨0, 120, 4, 4⟩ : TempoEvent).bpm ≠ 0 ∧
      (⟨0, 120, 4, 4⟩ : TempoEvent).lowerTimeSig ≠ 0 ∧
      (960 : ℤ) ≠ 0 ∧ (0 : ℚ) ≤ 2001 / 1000 ∧
      musicalToSeconds ⟨960, 48000, [⟨0, 120, 4, 4⟩]⟩
        (secondsToMusical ⟨960, 48000, [⟨0, 120, 4, 4⟩]⟩ (2001 / 1000)) =
        2001 / 1000 :=
  ⟨rfl, by norm_num, by norm_num, by norm_num, by norm_num,
    musicalToSeconds_secondsToMusical_roundTrip ⟨0, 120, 4, 4⟩ 960 48000
      (2001 / 1000) rfl (by norm_num) (by norm_num) (by norm_num) (by norm_num)⟩

theorem copyFrom_numSamples (dest : Buffer) (a b : ℕ) (src : Buffer)
    (c d n : ℕ) : (dest.copyFrom a b src c d n).numSamples = dest.numSamples :=
  rfl

/-- Data of a per-channel copy fold as `nudge` performs it: channel `ch`
receives the copied region once its index is reached; all other positions
keep the previous contents. -/
theorem foldl_copyFrom_data (input : Buffer) (dst src num : ℕ)
    (l : List ℕ) (out : Buffer) (ch i : ℕ) :
    ((l.foldl (fun o c => o.copyFrom c dst input c src num) out).data ch i) =
      if ch ∈ l ∧ dst ≤ i ∧ i < dst + num then
        input.data ch (src + (i - dst))
      else out.data ch i := by
  induction l generalizing out with
  | nil => simp
  | cons a l ih =>
    rw [List.foldl_cons, ih]
    by_cases ha : ch = a
    · subst ha
      by_cases hr : dst ≤ i ∧ i < dst + num
      · by_cases hm : ch ∈ l <;> simp [Buffer.copyFrom, hr, hm]
      · simp [Buffer.copyFrom, hr]
    · by_cases hm : ch ∈ l
      · simp [Buffer.copyFrom, hm, ha]
      · simp [Buffer.copyFrom, hm, ha]

theorem foldl_copyFrom_numSamples (input : Buffer) (dst src num : ℕ)
    (l : List ℕ) (out : Buffer) :
    ((l.foldl (fun o c => o.copyFrom c dst input c src num) out).numSamples) =
      out.numSamples := by
  induction l generalizing out with
  | nil => rfl
  | cons a l ih => rw [List.foldl_cons, ih]; rfl

theorem foldl_copyFrom_numChannels (input : Buffer) (dst src num : ℕ)
    (l : List ℕ) (out : Buffer) :
    ((l.foldl (fun o c => o.copyFrom c dst input c src num) out).numChannels) =
      out.numChannels := by
  induction l generalizing out with
  | nil => rfl
  | cons a l ih => rw [List.foldl_cons, ih]; rfl

/-- C2 (amended): when the nudge amount converts to at most the buffer
length, `nudge` returns a buffer of the same channel count and length whose
content is shifted by that many samples — and the vacated region is zero
(silence), because the output is cleared before the copy; the
`fillWithSilence` argument is never consulted, so both values of it give the
same (already silent-filled) result. -/
theorem nudge_shift_and_silence (s : TimeLattice) (input : Buffer)
    (amt : ℚ) (fws : Bool)
    (h : (secondsToSamples s |amt|).toNat ≤ input.numSamples) :
    (nudge s input amt fws).numChannels = input.numChannels ∧
      (nudge s input amt fws).numSamples = input.numSamples ∧
      nudge s input amt true = nudge s input amt false ∧
      (∀ ch < input.numChannels, ∀ i < input.numSamples,
        (nudge s input amt fws).data ch i =
          if 0 < amt then
            if i < (secondsToSamples s |amt|).toNat then 0
            else input.data ch (i - (secondsToSamples s |amt|).toNat)
          else
            if i < input.numSamples - (secondsToSamples s |amt|).toNat then
              input.data ch ((secondsToSamples s |amt|).toNat + i)
            else 0) := by
  unfold nudge
  dsimp only
  refine ⟨?_, ?_, rfl, ?_⟩
  · split <;> rw [foldl_copyFrom_numChannels] <;> rfl
  · split <;> rw [foldl_copyFrom_numSamples] <;> rfl
  · intro ch hch i hi
    set n := (secondsToSamples s |amt|).toNat with hn
    by_cases hf : 0 < amt
    · rw [if_pos hf, if_pos hf, foldl_copyFrom_data]
      simp only [List.mem_range, clearedBuffer, hch, true_and]
      by_cases hlt : i < n
      · rw [if_neg (by omega), if_pos hlt]
      · rw [if_pos ⟨by omega, by omega⟩, if_neg hlt]
        congr 1 <;> omega
    · rw [if_neg hf, if_neg hf, foldl_copyFrom_data]
      simp only [List.mem_range, clearedBuffer, hch, true_and]
      by_cases hlt : i < input.numSamples - n
      · rw [if_pos ⟨by omega, by omega⟩, if_pos hlt]
        congr 1
      · rw [if_neg (by omega), if_neg hlt]

theorem nudge_shift_and_silence_witness :
    (secondsToSamples sDefault |(1 / 48000 : ℚ)|).toNat ≤
        (⟨1, 2, fun _ _ => 1⟩ : Buffer).numSamples ∧
      (nudge sDefault ⟨1, 2, fun _ _ => 1⟩ (1 / 48000) false).numSamples = 2 := by
  have h : (secondsToSamples sDefault |(1 / 48000 : ℚ)|).toNat ≤
      (⟨1, 2, fun _ _ => 1⟩ : Buffer).numSamples := by
    rw [show |(1 / 48000 : ℚ)| = 1 / 48000 from abs_of_pos (by norm_num)]
    unfold secondsToSamples
    rw [show sDefault.sampleRate = 48000 from rfl,
      truncQ_eq_of_nonneg (n := 1) (by norm_num) (by norm_num) (by norm_num)]
    norm_num
  exact ⟨h, (nudge_shift_and_silence sDefault ⟨1, 2, fun _ _ => 1⟩
    (1 / 48000) false h).2.1.trans rfl⟩

/-- C2 counterexample: nudging the all-ones 2-sample buffer backward by one
sample with `fillWithSilence = false` leaves 0 (silence) in the vacated far
end, not the buffer's old content 1: the output is cleared before the copy,
so the vacated region never retains old content. -/
theorem nudge_vacated_region_is_zero :
    (nudge sDefault ⟨1, 2, fun _ _ => 1⟩ (-(1 / 48000)) false).data 0 1 = 0 ∧
      (⟨1, 2, fun _ _ => (1 : ℚ)⟩ : Buffer).data 0 1 = 1 ∧ (0 : ℚ) ≠ 1 := by
  refine ⟨?_, rfl, by norm_num⟩
  have hn : (secondsToSamples sDefault |(-(1 / 48000) : ℚ)|).toNat = 1 := by
    rw [show |(-(1 / 48000) : ℚ)| = 1 / 48000 by rw [abs_neg]; exact abs_of_pos (by norm_num)]
    unfold secondsToSamples
    rw [show sDefault.sampleRate = 48000 from rfl,
      truncQ_eq_of_nonneg (n := 1) (by norm_num) (by norm_num) (by norm_num)]
    rfl
  unfold nudge
  dsimp only
  rw [if_neg (by norm_num), foldl_copyFrom_data, hn]
  norm_num [clearedBuffer]

/-- C7 (amended): on a two-point curve with `simplify = true`, the second
point is dropped (result of length 1) exactly when the two quantized times
differ by less than half a tick duration and the two quantized values differ
by less than the perceptual threshold of the resolution; otherwise both
points are kept (length 2).  The raw 1 ms spacing of the input times plays
no role of its own: only the quantized time difference measured against
half a tick decides, so two points 1 ms apart need not collapse to one. -/
theorem quantizeBreakpoints_pair_simplify (s : TimeLattice)
    (r : ValueResolution) (p₁ p₂ : ℚ × ℚ) :
    (quantizeBreakpoints s [p₁, p₂] r true).length = 1 ↔
      (|quantizeToGrid s p₂.1 .Nearest - quantizeToGrid s p₁.1 .Nearest| <
          getTickDuration s * (1 / 2) ∧
        |quantizeValue p₂.2 r - quantizeValue p₁.2 r| <
          calculatePerceptualThreshold r) := by
  obtain ⟨t₁, v₁⟩ := p₁
  obtain ⟨t₂, v₂⟩ := p₂
  unfold quantizeBreakpoints
  rw [if_neg (by simp)]
  simp only [qbLoop]
  rw [if_neg (by simp)]
  simp only [qbLoop, List.nil_append]
  by_cases hC : |quantizeToGrid s t₂ .Nearest - quantizeToGrid s t₁ .Nearest| <
      getTickDuration s * (1 / 2) ∧
    |quantizeValue v₂ r - quantizeValue v₁ r| < calculatePerceptualThreshold r
  · rw [if_pos ⟨trivial, by simp, hC.1, hC.2⟩]
    simpa using hC
  · rw [if_neg (fun h => hC ⟨h.2.2.1, h.2.2.2⟩)]
    simpa using hC

theorem sSparse_tempoMap : sSparse.tempoMap = [⟨0, 15 / 4, 4, 4⟩] := rfl

theorem tickLengthAt_sSparse (t : ℚ) : tickLengthAt sSparse t = 2 / 3 := by
  unfold tickLengthAt
  rw [sSparse_tempoMap, getCurrentTempo_singleton]
  norm_num [sSparse]

theorem getTickDuration_sSparse : getTickDuration sSparse = 2 / 3 := by
  unfold getTickDuration
  rw [sSparse_tempoMap, getCurrentTempo_singleton]
  norm_num [sSparse]

theorem localGrid_sSparse_t1 :
    localGrid sSparse (333 / 1000) = [-(2 / 3), 0, 2 / 3] := by
  unfold localGrid generatePPQNGrid
  rw [tickLengthAt_sSparse]
  dsimp only
  rw [show truncQ ((333 / 1000 - 1) / (2 / 3)) = -1 from
    truncQ_eq_of_neg (by norm_num) (by norm_num) (by norm_num)]
  rw [show truncQ ((333 / 1000 + 1) / (2 / 3)) = 1 from
    truncQ_eq_of_nonneg (by norm_num) (by norm_num) (by norm_num)]
  rw [show ((1 : ℤ) - (-1) + 1).toNat = 3 from rfl]
  rw [show List.range 3 = [0, 1, 2] from rfl]
  simp [List.filter]
  norm_num

theorem quantizeToGrid_sSparse_t1 :
    quantizeToGrid sSparse (333 / 1000) .Nearest = 0 := by
  unfold quantizeToGrid nearestGridPoint
  rw [localGrid_sSparse_t1]
  simp only [nearestScan, List.isEmpty_cons, List.headD_cons]
  norm_num [abs, max_def]

theorem localGrid_sSparse_t2 :
    localGrid sSparse (334 / 1000) = [0, 2 / 3, 4 / 3] := by
  unfold localGrid generatePPQNGrid
  rw [tickLengthAt_sSparse]
  dsimp only
  rw [show truncQ ((334 / 1000 - 1) / (2 / 3)) = 0 from
    truncQ_eq_of_neg (by norm_num) (by norm_num) (by norm_num)]
  rw [show truncQ ((334 / 1000 + 1) / (2 / 3)) = 2 from
    truncQ_eq_of_nonneg (by norm_num) (by norm_num) (by norm_num)]
  rw [show ((2 : ℤ) - 0 + 1).toNat = 3 from rfl]
  rw [show List.range 3 = [0, 1, 2] from rfl]
  simp [List.filter]
  norm_num

theorem quantizeToGrid_sSparse_t2 :
    quantizeToGrid sSparse (334 / 1000) .Nearest = 2 / 3 := by
  unfold quantizeToGrid nearestGridPoint
  rw [localGrid_sSparse_t2]
  simp only [nearestScan, List.isEmpty_cons, List.headD_cons]
  norm_num [abs, max_def]

/-- C7 counterexample: at PPQN 24 and 3.75 bpm (tick duration 2/3 s), the
two-point curve `[(0.333, 0), (0.334, 0)]` has its times exactly 1 ms apart
and identical quantized values (difference 0, below every threshold), yet
`quantizeBreakpoints` with `simplify = true` keeps both points: the two
times straddle the midpoint of a tick and quantize to grid points a full
tick (2/3 s ≥ half a tick) apart, so the simplify test does not drop the
second point. -/
theorem quantizeBreakpoints_two_points_1ms_kept :
    (334 / 1000 : ℚ) - 333 / 1000 = 1 / 1000 ∧
      |quantizeValue 0 .Bit7 - quantizeValue 0 .Bit7| <
        calculatePerceptualThreshold .Bit7 ∧
      (quantizeBreakpoints sSparse [(333 / 1000, 0), (334 / 1000, 0)]
          .Bit7 true).length = 2 := by
  refine ⟨by norm_num, by simp [calculatePerceptualThreshold], ?_⟩
  unfold quantizeBreakpoints
  rw [if_neg (by simp)]
  simp only [qbLoop]
  rw [if_neg (by simp)]
  rw [quantizeToGrid_sSparse_t1, quantizeToGrid_sSparse_t2,
    getTickDuration_sSparse]
  rw [if_neg (fun h => absurd h.2.2.1 (by norm_num [abs, max_def]))]
  simp

/-- C10 (amended): `crossfade` stays within buffer bounds under the
precondition that `secondsToSamples(duration)` is non-negative, at most the
sample count of both clips, and that `clip2` has exactly as many channels
as `clip1` (at least as many is not enough: the final copy loop iterates
over the channels of `clip2` and writes them into the output, which only
has `clip1`'s channels).  Under that precondition the output length is
exactly `clip1.length + clip2.length - secondsToSamples(duration)`, and a
duration longer than `clip1` makes the fade start index negative. -/
theorem crossfade_bounds (s : TimeLattice) (c1 c2 : Buffer) (dur : ℚ)
    (h0 : 0 ≤ crossfadeSamples s dur)
    (h1 : crossfadeSamples s dur ≤ (c1.numSamples : ℤ))
    (h2 : crossfadeSamples s dur ≤ (c2.numSamples : ℤ))
    (h3 : c2.numChannels = c1.numChannels) :
    crossfadeInBounds s c1 c2 dur ∧
      (∀ fo fi : ℕ → ℚ,
        ((crossfade fo fi s c1 c2 dur).numSamples : ℤ) =
          (c1.numSamples : ℤ) + (c2.numSamples : ℤ) - crossfadeSamples s dur) ∧
      ((c1.numSamples : ℤ) < crossfadeSamples s dur →
        crossfadeFadeStart s c1 dur < 0) := by
  unfold crossfadeInBounds crossfade crossfadeOutputLength crossfadeFadeStart
  dsimp only
  refine ⟨⟨by omega, ?_, ?_, ?_⟩, fun fo fi => ?_, fun hlt => by omega⟩
  · intro ch hch
    exact ⟨hch, fun i hi => by omega⟩
  · intro ch hch i hi
    refine ⟨h0, by omega, by omega, by omega, by omega, by omega, by omega⟩
  · intro ch hch
    refine ⟨by omega, by omega, fun i hi => ⟨by omega, by omega, by omega⟩⟩
  · omega

theorem crossfade_bounds_witness :
    (0 ≤ crossfadeSamples sDefault (2 / 48000) ∧
        crossfadeSamples sDefault (2 / 48000) ≤
          ((⟨1, 4, fun _ _ => 0⟩ : Buffer).numSamples : ℤ) ∧
        crossfadeSamples sDefault (2 / 48000) ≤
          ((⟨1, 4, fun _ _ => 0⟩ : Buffer).numSamples : ℤ) ∧
        (⟨1, 4, fun _ _ => 0⟩ : Buffer).numChannels =
          (⟨1, 4, fun _ _ => 0⟩ : Buffer).numChannels) ∧
      crossfadeInBounds sDefault ⟨1, 4, fun _ _ => 0⟩ ⟨1, 4, fun _ _ => 0⟩
        (2 / 48000) := by
  have hf : crossfadeSamples sDefault (2 / 48000) = 2 := by
    unfold crossfadeSamples secondsToSamples
    rw [show sDefault.sampleRate = 48000 from rfl]
    exact truncQ_eq_of_nonneg (by norm_num) (by norm_num) (by norm_num)
  have h0 : 0 ≤ crossfadeSamples sDefault (2 / 48000) := by rw [hf]; norm_num
  have h1 : crossfadeSamples sDefault (2 / 48000) ≤
      ((⟨1, 4, fun _ _ => 0⟩ : Buffer).numSamples : ℤ) := by rw [hf]; norm_num
  exact ⟨⟨h0, h1, h1, rfl⟩,
    (crossfade_bounds sDefault ⟨1, 4, fun _ _ => 0⟩ ⟨1, 4, fun _ _ => 0⟩
      (2 / 48000) h0 h1 h1 rfl).1⟩

/-- C10 counterexample: with `clip1` mono and `clip2` stereo (so `clip2` has
at least as many channels as `clip1`, satisfying the claimed precondition,
with a zero crossfade duration well within both lengths), the final copy
loop of `crossfade` writes channel 1 of the output, which has only channel
0: the claimed precondition does not keep the accesses in bounds. -/
theorem crossfade_channel_overrun :
    0 ≤ crossfadeSamples sDefault 0 ∧
      crossfadeSamples sDefault 0 ≤
        ((⟨1, 2, fun _ _ => 0⟩ : Buffer).numSamples : ℤ) ∧
      crossfadeSamples sDefault 0 ≤
        ((⟨2, 2, fun _ _ => 0⟩ : Buffer).numSamples : ℤ) ∧
      (⟨1, 2, fun _ _ => 0⟩ : Buffer).numChannels ≤
        (⟨2, 2, fun _ _ => 0⟩ : Buffer).numChannels ∧
      ¬crossfadeInBounds sDefault ⟨1, 2, fun _ _ => 0⟩ ⟨2, 2, fun _ _ => 0⟩ 0 := by
  have hf : crossfadeSamples sDefault 0 = 0 := by
    unfold crossfadeSamples secondsToSamples
    rw [show sDefault.sampleRate = 48000 from rfl]
    exact truncQ_eq_of_nonneg (by norm_num) (by norm_num) (by norm_num)
  refine ⟨by rw [hf], by rw [hf]; norm_num, by rw [hf]; norm_num,
    by norm_num, fun h => ?_⟩
  unfold crossfadeInBounds at h
  dsimp only at h
  exact absurd (h.2.2.2 1 (by norm_num)).1 (by norm_num)

theorem nearestScan_mem (t : ℚ) (l : List ℚ) (b : ℚ) :
    nearestScan t l b ∈ b :: l := by
  induction l generalizing b with
  | nil => simp [nearestScan]
  | cons g rest ih =>
    rw [nearestScan]
    rcases List.mem_cons.mp (ih (if |t - g| < |t - b| then g else b)) with h | h
    · rw [h]
      split <;> simp
    · simp [h]

theorem nearestScan_min (t : ℚ) (l : List ℚ) (b : ℚ) :
    ∀ g ∈ b :: l, |t - nearestScan t l b| ≤ |t - g| := by
  induction l generalizing b with
  | nil => simp [nearestScan]
  | cons a rest ih =>
    intro x hx
    rw [nearestScan]
    by_cases hc : |t - a| < |t - b|
    · rw [if_pos hc]
      rcases List.mem_cons.mp hx with h | h
      · subst h
        exact le_trans (ih a a (List.mem_cons_self _ _)) hc.le
      · rcases List.mem_cons.mp h with h2 | h2
        · subst h2
          exact ih x x (List.mem_cons_self _ _)
        · exact ih a x (List.mem_cons_of_mem _ h2)
    · rw [if_neg hc]
      rcases List.mem_cons.mp hx with h | h
      · subst h
        exact ih x x (List.mem_cons_self _ _)
      · rcases List.mem_cons.mp h with h2 | h2
        · subst h2
          exact le_trans (ih b b (List.mem_cons_self _ _)) (le_of_not_lt hc)
        · exact ih b x (List.mem_cons_of_mem _ h2)

theorem nearestScan_append (t : ℚ) (l₁ l₂ : List ℚ) (b : ℚ) :
    nearestScan t (l₁ ++ l₂) b = nearestScan t l₂ (nearestScan t l₁ b) := by
  induction l₁ generalizing b with
  | nil => simp [nearestScan]
  | cons g rest ih => rw [List.cons_append, nearestScan, nearestScan, ih]

theorem nearestScan_of_min (t : ℚ) (l : List ℚ) (b : ℚ)
    (h : ∀ g ∈ l, |t - b| ≤ |t - g|) : nearestScan t l b = b := by
  induction l with
  | nil => rfl
  | cons g rest ih =>
    rw [nearestScan, if_neg (not_lt.mpr (h g (List.mem_cons_self _ _)))]
    exact ih fun x hx => h x (List.mem_cons_of_mem _ hx)

theorem mem_generatePPQNGrid (s : TimeLattice) (a b x : ℚ)
    (hx : x ∈ generatePPQNGrid s a b) :
    ∃ k : ℤ, x = (k : ℚ) * tickLengthAt s a := by
  unfold generatePPQNGrid at hx
  dsimp only at hx
  have hx2 := List.mem_of_mem_filter hx
  rcases List.mem_map.mp hx2 with ⟨k, _, hk⟩
  exact ⟨k, hk.symm⟩

theorem generatePPQNGrid_pairwise (s : TimeLattice) (a b : ℚ)
    (h : 0 < tickLengthAt s a) :
    (generatePPQNGrid s a b).Pairwise (· < ·) := by
  unfold generatePPQNGrid
  dsimp only
  refine List.Pairwise.filter _
    (List.Pairwise.map (R := (· < ·)) _ ?_
      (List.Pairwise.map (R := (· < ·)) _ ?_ (List.pairwise_lt_range _)))
  · intro x y hxy
    exact mul_lt_mul_of_pos_right (by exact_mod_cast hxy) h
  · intro x y hxy
    omega

theorem localGrid_pairwise (s : TimeLattice) (t : ℚ)
    (h : 0 < tickLengthAt s (t - 1)) :
    (localGrid s t).Pairwise (· < ·) :=
  generatePPQNGrid_pairwise s (t - 1) (t + 1) h

theorem mem_localGrid (s : TimeLattice) (t x : ℚ) (hx : x ∈ localGrid s t) :
    ∃ k : ℤ, x = (k : ℚ) * tickLengthAt s (t - 1) :=
  mem_generatePPQNGrid s (t - 1) (t + 1) x hx

theorem headD_mem_of_ne_nil (l : List ℚ) (d : ℚ) (h : l ≠ []) :
    l.headD d ∈ l := by
  cases l with
  | nil => exact absurd rfl h
  | cons a rest => simp

theorem nearestGridPoint_mem (s : TimeLattice) (t : ℚ)
    (h : localGrid s t ≠ []) : nearestGridPoint s t ∈ localGrid s t := by
  unfold nearestGridPoint
  rcases List.mem_cons.mp (nearestScan_mem t (localGrid s t)
    ((localGrid s t).headD t)) with hm | hm
  · rw [hm]
    exact headD_mem_of_ne_nil _ _ h
  · exact hm

theorem nearestGridPoint_min (s : TimeLattice) (t : ℚ) :
    ∀ g ∈ localGrid s t, |t - nearestGridPoint s t| ≤ |t - g| := by
  intro g hg
  exact nearestScan_min t (localGrid s t) ((localGrid s t).headD t) g
    (List.mem_cons_of_mem _ hg)

theorem localGrid_isEmpty_false {s : TimeLattice} {t : ℚ}
    (hne : localGrid s t ≠ []) : (localGrid s t).isEmpty = false := by
  cases hl : localGrid s t with
  | nil => exact absurd hl hne
  | cons x xs => rfl

theorem quantizeToGrid_nearest_eq {s : TimeLattice} {t : ℚ}
    (hne : localGrid s t ≠ []) :
    quantizeToGrid s t .Nearest = nearestGridPoint s t := by
  unfold quantizeToGrid
  dsimp only
  rw [localGrid_isEmpty_false hne]
  simp

theorem quantizeToGrid_floor_eq {s : TimeLattice} {t : ℚ}
    (hne : localGrid s t ≠ []) :
    quantizeToGrid s t .Floor =
      if nearestGridPoint s t ≤ t then nearestGridPoint s t
      else if 1 < (localGrid s t).length then
        (localGrid s t).getD ((localGrid s t).length - 2) 0
      else nearestGridPoint s t := by
  unfold quantizeToGrid
  dsimp only
  rw [localGrid_isEmpty_false hne]
  simp

theorem quantizeToGrid_ceil_eq {s : TimeLattice} {t : ℚ}
    (hne : localGrid s t ≠ []) :
    quantizeToGrid s t .Ceil =
      if t ≤ nearestGridPoint s t then nearestGridPoint s t
      else if 1 < (localGrid s t).length then (localGrid s t).getD 1 0
      else nearestGridPoint s t := by
  unfold quantizeToGrid
  dsimp only
  rw [localGrid_isEmpty_false hne]
  simp

/-- C1 (amended): when the ±1 s local grid is nonempty and the tick length
positive, every mode of `quantizeToGrid` returns an exact integer multiple
of the tick length; `Nearest` attains the minimal distance and wins ties by
the first-scanned (smallest) candidate; but when the nearest point is on the
wrong side of `t`, `Floor` returns the second-to-last point of the local
grid and `Ceil` its second point — one step inside the corresponding end of
the ±1 s window, not one step from the nearest point. -/
theorem quantizeToGrid_modes (s : TimeLattice) (t : ℚ)
    (hne : localGrid s t ≠ []) (htl : 0 < tickLengthAt s (t - 1)) :
    (∀ mode, ∃ k : ℤ,
        quantizeToGrid s t mode = (k : ℚ) * tickLengthAt s (t - 1)) ∧
      ((∀ g ∈ localGrid s t,
          |t - quantizeToGrid s t .Nearest| ≤ |t - g|) ∧
        ∀ a b, a ∈ localGrid s t → b ∈ localGrid s t → a < b →
          |t - a| = |t - b| → (∀ g ∈ localGrid s t, |t - a| ≤ |t - g|) →
          quantizeToGrid s t .Nearest = a) ∧
      (t < nearestGridPoint s t → 1 < (localGrid s t).length →
        quantizeToGrid s t .Floor =
          (localGrid s t).getD ((localGrid s t).length - 2) 0) ∧
      (nearestGridPoint s t < t → 1 < (localGrid s t).length →
        quantizeToGrid s t .Ceil = (localGrid s t).getD 1 0) := by
  have hmemmode : ∀ mode, quantizeToGrid s t mode ∈ localGrid s t := by
    intro mode
    cases mode with
    | Nearest =>
      rw [quantizeToGrid_nearest_eq hne]
      exact nearestGridPoint_mem s t hne
    | Floor =>
      rw [quantizeToGrid_floor_eq hne]
      split
      · exact nearestGridPoint_mem s t hne
      · split
        · next hlen =>
            rw [List.getD_eq_getElem (localGrid s t) 0 (by omega)]
            exact List.getElem_mem _
        · exact nearestGridPoint_mem s t hne
    | Ceil =>
      rw [quantizeToGrid_ceil_eq hne]
      split
      · exact nearestGridPoint_mem s t hne
      · split
        · next hlen =>
            rw [List.getD_eq_getElem (localGrid s t) 0 (by omega)]
            exact List.getElem_mem _
        · exact nearestGridPoint_mem s t hne
  refine ⟨fun mode => mem_localGrid s t _ (hmemmode mode), ⟨?_, ?_⟩, ?_, ?_⟩
  · intro g hg
    rw [quantizeToGrid_nearest_eq hne]
    exact nearestGridPoint_min s t g hg
  · intro a b ha hb hab heq hmin
    rw [quantizeToGrid_nearest_eq hne]
    have hsorted := localGrid_pairwise s t htl
    rcases List.append_of_mem ha with ⟨l₁, l₂, hsplit⟩
    have hbl₂ : b ∈ l₂ := by
      rw [hsplit] at hb
      rcases List.mem_append.mp hb with h1 | h1
      · exfalso
        rw [hsplit] at hsorted
        have := (List.pairwise_append.mp hsorted).2.2 b h1 a
          (List.mem_cons_self _ _)
        exact absurd hab (by linarith)
      · rcases List.mem_cons.mp h1 with h2 | h2
        · exact absurd h2.symm (ne_of_lt hab)
        · exact h2
    unfold nearestGridPoint
    generalize hg0 : (localGrid s t).headD t = g0
    rw [hsplit, nearestScan_append, nearestScan]
    set m := nearestScan t l₁ g0 with hm
    have hml₁mem : ∀ x ∈ l₁, x ∈ localGrid s t := by
      intro x hx
      rw [hsplit]
      exact List.mem_append.mpr (Or.inl hx)
    have hg0mem : g0 ∈ localGrid s t := hg0 ▸ headD_mem_of_ne_nil _ _ hne
    have hmmem : m ∈ localGrid s t := by
      rcases List.mem_cons.mp (nearestScan_mem t l₁ g0) with h1 | h1
      · rw [hm, h1]
        exact hg0mem
      · exact hml₁mem _ h1
    have hminm : |t - a| ≤ |t - m| := hmin m hmmem
    have hl₂mem : ∀ g ∈ l₂, g ∈ localGrid s t := by
      intro g hg
      rw [hsplit]
      exact List.mem_append.mpr (Or.inr (List.mem_cons_of_mem _ hg))
    by_cases hlt : |t - a| < |t - m|
    · rw [if_pos hlt]
      exact nearestScan_of_min t l₂ a fun g hg => hmin g (hl₂mem g hg)
    · rw [if_neg hlt]
      have heqm : |t - m| = |t - a| := le_antisymm (le_of_not_lt hlt) hminm
      have hresm : nearestScan t l₂ m = m := by
        refine nearestScan_of_min t l₂ m fun g hg => ?_
        rw [heqm]
        exact hmin g (hl₂mem g hg)
      rw [hresm]
      by_cases hma : m = a
      · exact hma
      · exfalso
        have h2t : m + a = 2 * t := by
          rcases abs_eq_abs.mp heqm with h | h
          · exact absurd (by linarith : m = a) hma
          · linarith
        have h2t2 : a + b = 2 * t := by
          rcases abs_eq_abs.mp heq with h | h
          · exact absurd (by linarith : a = b) (ne_of_lt hab)
          · linarith
        have hmb : m = b := by linarith
        have hl₁ne : l₁ ≠ [] := by
          intro hnil
          apply hma
          have hga : g0 = a := by
            rw [← hg0, hsplit, hnil]
            rfl
          rw [hm, hnil]
          simpa [nearestScan] using hga
        have hg0l₁ : g0 ∈ l₁ := by
          rw [← hg0, hsplit]
          cases hl : l₁ with
          | nil => exact absurd hl hl₁ne
          | cons x xs => simp
        have hml₁ : m ∈ l₁ := by
          rcases List.mem_cons.mp (nearestScan_mem t l₁ g0) with h1 | h1
          · rw [hm, h1]
            exact hg0l₁
          · exact h1
        rw [hsplit] at hsorted
        have hlta := (List.pairwise_append.mp hsorted).2.2 m hml₁ a
          (List.mem_cons_self _ _)
        rw [hmb] at hlta
        exact absurd hab (by linarith)
  · intro hwrong hlen
    rw [quantizeToGrid_floor_eq hne, if_neg (not_le.mpr hwrong), if_pos hlen]
  · intro hwrong hlen
    rw [quantizeToGrid_ceil_eq hne, if_neg (not_le.mpr hwrong), if_pos hlen]

theorem localGrid_sSparse_t3 :
    localGrid sSparse (11 / 20) = [0, 2 / 3, 4 / 3] := by
  unfold localGrid generatePPQNGrid
  rw [tickLengthAt_sSparse]
  dsimp only
  rw [show truncQ ((11 / 20 - 1) / (2 / 3)) = 0 from
    truncQ_eq_of_neg (by norm_num) (by norm_num) (by norm_num)]
  rw [show truncQ ((11 / 20 + 1) / (2 / 3)) = 2 from
    truncQ_eq_of_nonneg (by norm_num) (by norm_num) (by norm_num)]
  rw [show ((2 : ℤ) - 0 + 1).toNat = 3 from rfl]
  rw [show List.range 3 = [0, 1, 2] from rfl]
  simp [List.filter]
  norm_num

theorem nearestGridPoint_sSparse_t3 :
    nearestGridPoint sSparse (11 / 20) = 2 / 3 := by
  unfold nearestGridPoint
  rw [localGrid_sSparse_t3]
  simp only [nearestScan, List.headD_cons]
  norm_num [abs, max_def]

theorem quantizeToGrid_modes_witness :
    localGrid sSparse (11 / 20) ≠ [] ∧
      0 < tickLengthAt sSparse (11 / 20 - 1) ∧
      ∃ k : ℤ, quantizeToGrid sSparse (11 / 20) QuantizeMode.Nearest =
        (k : ℚ) * tickLengthAt sSparse (11 / 20 - 1) := by
  have hne : localGrid sSparse (11 / 20) ≠ [] := by
    rw [localGrid_sSparse_t3]
    simp
  have htl : 0 < tickLengthAt sSparse (11 / 20 - 1) := by
    rw [tickLengthAt_sSparse]
    norm_num
  exact ⟨hne, htl,
    (quantizeToGrid_modes sSparse (11 / 20) hne htl).1 QuantizeMode.Nearest⟩

/-- C1 counterexample: at PPQN 24 / 3.75 bpm (tick length 2/3 s) and input
time 0.55, the local grid is `[0, 2/3, 4/3]` and the nearest point 2/3 lies
above the input, so the claim requires `Floor` to return the point one step
below the nearest, i.e. 0; the code instead returns `grid[length - 2] =
2/3`, which is the nearest point itself — above the input and not one step
from it. -/
theorem quantizeToGrid_floor_not_one_step_below :
    nearestGridPoint sSparse (11 / 20) = 2 / 3 ∧
      (11 / 20 : ℚ) < 2 / 3 ∧
      quantizeToGrid sSparse (11 / 20) QuantizeMode.Floor = 2 / 3 ∧
      (2 / 3 : ℚ) ≠ 2 / 3 - tickLengthAt sSparse (11 / 20 - 1) := by
  have hne : localGrid sSparse (11 / 20) ≠ [] := by
    rw [localGrid_sSparse_t3]
    simp
  refine ⟨nearestGridPoint_sSparse_t3, by norm_num, ?_, ?_⟩
  · rw [quantizeToGrid_floor_eq hne, nearestGridPoint_sSparse_t3,
      if_neg (by norm_num), if_pos (by rw [localGrid_sSparse_t3]; simp),
      localGrid_sSparse_t3]
    rfl
  · rw [tickLengthAt_sSparse]
    norm_num

theorem sum_ite_range (n c : ℕ) :
    ∑ i in Finset.range n, (if i < c then (0 : ℚ) else 1) =
      ((n - min n c : ℕ) : ℚ) := by
  induction n with
  | zero => simp
  | succ n ih =>
    rw [Finset.sum_range_succ, ih]
    by_cases h : n < c
    · rw [if_pos h]
      have h1 : min n c = n := by omega
      have h2 : min (n + 1) c = n + 1 := by omega
      rw [h1, h2]
      simp
    · rw [if_neg h]
      have h1 : min n c = c := by omega
      have h2 : min (n + 1) c = c := by omega
      rw [h1, h2]
      push_cast [Nat.sub_add_comm (by omega : c ≤ n)]
      ring

/-- Mean square of one analysis window of a single-channel step buffer
(silent below sample `J`, full-scale from `J` on): the fraction of window
samples at or past the jump. -/
theorem windowMeanSquare_step (J N start : ℕ) :
    windowMeanSquare ⟨1, N, fun _ i => if i < J then 0 else 1⟩ start =
      ((windowSize - min windowSize (J - start) : ℕ) : ℚ) / (windowSize : ℚ) := by
  unfold windowMeanSquare
  dsimp only
  rw [Finset.sum_range_one]
  have hcong : ∀ i ∈ Finset.range windowSize,
      (if start + i < J then (0 : ℚ) else 1) *
          (if start + i < J then (0 : ℚ) else 1) =
        (if i < J - start then (0 : ℚ) else 1) := by
    intro i _
    by_cases h : start + i < J
    · rw [if_pos h, if_pos (by omega)]
      ring
    · rw [if_neg h, if_neg (by omega)]
      ring
  rw [Finset.sum_congr rfl hcong, sum_ite_range]
  norm_num

theorem transientScan_sublist (buf : Buffer) (θ : ℚ) (l : List ℕ) (p : ℝ) :
    (transientScan buf θ l p).Sublist l := by
  induction l generalizing p with
  | nil => simp [transientScan]
  | cons a rest ih =>
    rw [transientScan]
    split
    · exact List.Sublist.cons₂ a (ih _)
    · exact List.Sublist.cons a (ih _)

/-- Windows of zero mean square never fire at a positive threshold and keep
the carried previous energy at zero. -/
theorem transientScan_zeros (buf : Buffer) (θ : ℚ) (hθ : 0 < θ)
    (l rest : List ℕ) (h : ∀ st ∈ l, windowMeanSquare buf st = 0) :
    transientScan buf θ (l ++ rest) 0 = transientScan buf θ rest 0 := by
  induction l with
  | nil => simp
  | cons a tail ih =>
    rw [List.cons_append, transientScan]
    have he : windowEnergy buf a = 0 := by
      unfold windowEnergy
      rw [h a (List.mem_cons_self _ _)]
      simp [Real.sqrt_zero]
    rw [he]
    rw [if_neg (by
      rw [sub_zero, max_self]
      exact not_lt.mpr (by exact_mod_cast hθ.le))]
    rw [zero_mul, List.nil_append]
    exact ih fun st hst => h st (List.mem_cons_of_mem _ hst)

/-- Windows of unit mean square never fire at threshold 1/2 once the carried
previous energy is at least 1/2 (it then stays at 0.9). -/
theorem transientScan_ones (buf : Buffer) (l : List ℕ) (p : ℝ)
    (hp : (1 / 2 : ℝ) ≤ p) (h : ∀ st ∈ l, windowMeanSquare buf st = 1) :
    transientScan buf (1 / 2) l p = [] := by
  induction l generalizing p with
  | nil => rfl
  | cons a tail ih =>
    rw [transientScan]
    have he : windowEnergy buf a = 1 := by
      unfold windowEnergy
      rw [h a (List.mem_cons_self _ _)]
      simp
    rw [he]
    rw [if_neg (not_lt.mpr (max_le (by push_cast; norm_num)
      (by push_cast; linarith)))]
    rw [List.nil_append, one_mul]
    exact ih _ (by norm_num) fun st hst => h st (List.mem_cons_of_mem _ hst)

/-- C8 (amended): transient times are always strictly ascending; and for a
hop-aligned step buffer (silent on `[0, 512k)`, `k ≥ 2`, full-scale for at
least 513 further samples) at the default threshold 1/2, exactly one
transient fires, at the window starting 512 samples before the jump. -/
theorem detectTransients_aligned_one_and_sorted (s : TimeLattice)
    (k m : ℕ) (hk : 2 ≤ k) (hm : 513 ≤ m) (hr : 0 < s.sampleRate) :
    detectTransients s (bufAligned k m) (1 / 2) =
        [samplesToSeconds s ((512 * (k - 1) : ℕ) : ℤ)] ∧
      ∀ (buf : Buffer) (θ : ℚ),
        (detectTransients s buf θ).Pairwise (· < ·) := by
  constructor
  · have hbuf : bufAligned k m =
        ⟨1, 512 * k + m, fun _ i => if i < 512 * k then 0 else 1⟩ := rfl
    have hms : ∀ start, windowMeanSquare (bufAligned k m) start =
        ((windowSize - min windowSize (512 * k - start) : ℕ) : ℚ) /
          (windowSize : ℚ) := by
      intro start
      rw [hbuf, windowMeanSquare_step]
    have hN : (bufAligned k m).numSamples = 512 * k + m := rfl
    have hWk : k ≤ numWindows (512 * k + m) := by
      unfold numWindows windowSize hopSize
      omega
    unfold detectTransients
    rw [hN, windowStarts]
    unfold hopSize
    rw [show numWindows (512 * k + m) =
      (k - 1) + 1 + (numWindows (512 * k + m) - k) by omega]
    rw [List.range_add, List.range_add, List.map_append, List.map_append]
    rw [List.append_assoc]
    rw [transientScan_zeros (bufAligned k m) (1 / 2) (by norm_num) _ _ (by
      intro st hst
      rcases List.mem_map.mp hst with ⟨j, hj, rfl⟩
      rw [List.mem_range] at hj
      rw [hms]
      rw [show min windowSize (512 * k - j * 512) = windowSize by
        unfold windowSize
        omega]
      simp)]
    rw [show ((List.range (numWindows (512 * k + m) - k)).map
        ((k - 1) + 1 + ·)).map (· * 512) =
      (List.range (numWindows (512 * k + m) - k)).map
        (fun j => (k + j) * 512) by
      rw [List.map_map]
      refine List.map_congr_left fun j hj => ?_
      show ((k - 1) + 1 + j) * 512 = (k + j) * 512
      omega]
    rw [show ((List.range 1).map ((k - 1) + ·)).map (· * 512) =
      [(k - 1) * 512] by rfl]
    rw [List.singleton_append, transientScan]
    have he : windowEnergy (bufAligned k m) ((k - 1) * 512) =
        Real.sqrt (1 / 2) := by
      unfold windowEnergy
      rw [hms]
      rw [show min windowSize (512 * k - (k - 1) * 512) = 512 by
        unfold windowSize
        omega]
      rw [show ((((windowSize - 512 : ℕ) : ℚ) / (windowSize : ℚ) : ℚ) : ℝ) =
        (1 / 2 : ℝ) by norm_num [windowSize]]
    rw [he]
    rw [sub_zero, max_eq_right (Real.sqrt_nonneg _)]
    rw [if_pos (by
      rw [show ((1 / 2 : ℚ) : ℝ) = (1 / 2 : ℝ) by norm_num]
      exact (Real.lt_sqrt (by norm_num)).mpr (by norm_num))]
    rw [transientScan_ones (bufAligned k m) _ _ (by
        nlinarith [Real.sq_sqrt (show (0 : ℝ) ≤ 1 / 2 by norm_num),
          Real.sqrt_nonneg (1 / 2 : ℝ)])
      (by
        intro st hst
        rcases List.mem_map.mp hst with ⟨j, hj, rfl⟩
        rw [hms]
        rw [show min windowSize (512 * k - (k + j) * 512) = 0 by omega]
        norm_num [windowSize])]
    rw [show ((k - 1) * 512 : ℕ) = 512 * (k - 1) by ring]
    simp
  · intro buf θ
    unfold detectTransients
    have hws : (windowStarts buf.numSamples).Pairwise (· < ·) := by
      unfold windowStarts
      exact List.Pairwise.map _ (fun a b hab => by unfold hopSize; omega)
        (List.pairwise_lt_range _)
    have hscan := hws.sublist
      (transientScan_sublist buf θ (windowStarts buf.numSamples) 0)
    refine List.Pairwise.map _ (fun a b hab => ?_) hscan
    unfold samplesToSeconds
    rw [div_eq_mul_inv, div_eq_mul_inv]
    exact mul_lt_mul_of_pos_right (by exact_mod_cast hab) (inv_pos.mpr hr)

theorem detectTransients_aligned_witness :
    2 ≤ 2 ∧ 513 ≤ 513 ∧ 0 < sDefault.sampleRate ∧
      detectTransients sDefault (bufAligned 2 513) (1 / 2) =
        [samplesToSeconds sDefault ((512 * (2 - 1) : ℕ) : ℤ)] := by
  have hr : 0 < sDefault.sampleRate := by
    rw [show sDefault.sampleRate = 48000 from rfl]
    norm_num
  exact ⟨le_refl 2, le_refl 513, hr,
    (detectTransients_aligned_one_and_sorted sDefault 2 513 (le_refl 2)
      (le_refl 513) hr).1⟩

/-- C8 counterexample: the buffer silent for 1424 samples (more than one
window) and then at sustained full scale — with the jump misaligned with
the 512-sample hop — produces NO transient at all at threshold 1/2: the
two windows straddling the jump see RMS jumps of about 0.33 and 0.48, and
the first full-scale window only 0.30, all below the threshold.  So such a
buffer does not always report exactly one transient near the jump. -/
theorem detectTransients_misaligned_zero :
    bufMisaligned.numSamples = 3072 ∧
      bufMisaligned.data 0 1423 = 0 ∧ bufMisaligned.data 0 1424 = 1 ∧
      detectTransients sDefault bufMisaligned (1 / 2) = [] := by
  refine ⟨rfl, by norm_num [bufMisaligned], by norm_num [bufMisaligned], ?_⟩
  have hms : ∀ start, windowMeanSquare bufMisaligned start =
      ((windowSize - min windowSize (1424 - start) : ℕ) : ℚ) /
        (windowSize : ℚ) := by
    intro start
    rw [show bufMisaligned =
      ⟨1, 3072, fun _ i => if i < 1424 then 0 else 1⟩ from rfl,
      windowMeanSquare_step]
  have hws : windowStarts 3072 = [0, 512, 1024, 1536] := by decide
  have he0 : windowEnergy bufMisaligned 0 = 0 := by
    unfold windowEnergy
    rw [hms]
    rw [show ((((windowSize - min windowSize (1424 - 0) : ℕ) : ℚ) /
      (windowSize : ℚ) : ℚ) : ℝ) = 0 by norm_num [windowSize]]
    exact Real.sqrt_zero
  have he1 : windowEnergy bufMisaligned 512 = Real.sqrt (7 / 64) := by
    unfold windowEnergy
    rw [hms]
    rw [show ((((windowSize - min windowSize (1424 - 512) : ℕ) : ℚ) /
      (windowSize : ℚ) : ℚ) : ℝ) = 7 / 64 by norm_num [windowSize]]
  have he2 : windowEnergy bufMisaligned 1024 = Real.sqrt (39 / 64) := by
    unfold windowEnergy
    rw [hms]
    rw [show ((((windowSize - min windowSize (1424 - 1024) : ℕ) : ℚ) /
      (windowSize : ℚ) : ℚ) : ℝ) = 39 / 64 by norm_num [windowSize]]
  have he3 : windowEnergy bufMisaligned 1536 = 1 := by
    unfold windowEnergy
    rw [hms]
    rw [show ((((windowSize - min windowSize (1424 - 1536) : ℕ) : ℚ) /
      (windowSize : ℚ) : ℚ) : ℝ) = 1 by norm_num [windowSize]]
    exact Real.sqrt_one
  have ha_lo : (33 / 100 : ℝ) ≤ Real.sqrt (7 / 64) := by
    rw [show (33 / 100 : ℝ) = Real.sqrt ((33 / 100) ^ 2) by
      rw [Real.sqrt_sq (by norm_num)]]
    exact Real.sqrt_le_sqrt (by norm_num)
  have hb_hi : Real.sqrt (39 / 64 : ℝ) ≤ 79 / 100 := by
    rw [show (79 / 100 : ℝ) = Real.sqrt ((79 / 100) ^ 2) by
      rw [Real.sqrt_sq (by norm_num)]]
    exact Real.sqrt_le_sqrt (by norm_num)
  have hb_lo : (78 / 100 : ℝ) ≤ Real.sqrt (39 / 64) := by
    rw [show (78 / 100 : ℝ) = Real.sqrt ((78 / 100) ^ 2) by
      rw [Real.sqrt_sq (by norm_num)]]
    exact Real.sqrt_le_sqrt (by norm_num)
  have ha_hi : Real.sqrt (7 / 64 : ℝ) ≤ 1 / 2 := by
    rw [show (1 / 2 : ℝ) = Real.sqrt ((1 / 2) ^ 2) by
      rw [Real.sqrt_sq (by norm_num)]]
    exact Real.sqrt_le_sqrt (by norm_num)
  have ha_nn : (0 : ℝ) ≤ Real.sqrt (7 / 64) := Real.sqrt_nonneg _
  have hcast : ((1 / 2 : ℚ) : ℝ) = (1 / 2 : ℝ) := by norm_num
  unfold detectTransients
  rw [show bufMisaligned.numSamples = 3072 from rfl, hws]
  rw [transientScan]
  rw [he0]
  rw [if_neg (by
    rw [sub_zero, max_self, hcast]
    norm_num)]
  rw [zero_mul, List.nil_append]
  rw [transientScan]
  rw [he1]
  rw [if_neg (by
    rw [sub_zero, max_eq_right ha_nn, hcast]
    exact not_lt.mpr ha_hi)]
  rw [List.nil_append]
  rw [transientScan]
  rw [he2]
  rw [if_neg (by
    rw [hcast]
    refine not_lt.mpr (max_le (by norm_num) ?_)
    linarith)]
  rw [List.nil_append]
  rw [transientScan]
  rw [he3]
  rw [if_neg (by
    rw [hcast]
    refine not_lt.mpr (max_le (by norm_num) ?_)
    linarith)]
  rw [List.nil_append]
  rfl
